import Mathlib

/-!
# Verification of the KPong simulation core

Shallow embedding of the Pong-variant game in `src/main.rs`. Machine `f32`
values are modelled as real numbers; the game's constants, the paddle and
ball motion systems (`move_paddle`, `move_ball`), the AI controller
(`enemy_ai`), the round state machine and the round timer are translated
directly from the source. Theorems below settle the frozen claims about the
spec against these definitions.
-/

namespace KPong

/-! ## Constants (from `src/main.rs`, lines 5-21) -/

/-- `WINDOW_SIZE.0`: window width, 512. -/
def WINDOW_W : ℝ := 512

/-- `WINDOW_SIZE.1`: window height, 512. -/
def WINDOW_H : ℝ := 512

/-- `PADDLE_SHAPE.half_size.x`. -/
def PADDLE_HALF_X : ℝ := 4

/-- `PADDLE_SHAPE.half_size.y`. -/
def PADDLE_HALF_Y : ℝ := 32

/-- `BALL_SHAPE.half_size.x`. -/
def BALL_HALF_X : ℝ := 4

/-- `BALL_SHAPE.half_size.y`. -/
def BALL_HALF_Y : ℝ := 4

/-- `BALL_SPEED`. -/
def BALL_SPEED : ℝ := 256

/-- `PADDLE_SPEED`. -/
def PADDLE_SPEED : ℝ := 128

/-- `COLLISION_MAX_ANGLE = PI/4`. -/
noncomputable def COLLISION_MAX_ANGLE : ℝ := Real.pi / 4

/-- `NEXT_ROUND_INTERVAL`: round-over pause duration in seconds. -/
def NEXT_ROUND_INTERVAL : ℝ := 1

/-- `MAX_BALL_Y = WINDOW_SIZE.1/2 - BALL_SHAPE.half_size.y` (local constant in
`move_ball`). -/
noncomputable def MAX_BALL_Y : ℝ := WINDOW_H / 2 - BALL_HALF_Y

/-! ## Data model -/

/-- A 2-D vector with real components, modelling `bevy::Vec2` (and the `x`,`y`
components of a `Vec3` translation; the `z` component is never used by the
simulation core). -/
structure Vec2 where
  x : ℝ
  y : ℝ

/-- The `GameState` round state machine (`src/main.rs` lines 23-30). -/
inductive GameState where
  | Serving
  | Started
  | RoundOver
  | GameOver
deriving DecidableEq

/-- A ball's mutable state: its translation and its velocity (`Ball.vel`
component plus the entity's `Transform`). -/
structure BallState where
  pos : Vec2
  vel : Vec2

/-- `clamp` from `src/main.rs` lines 82-86, literally: `if v < min { min }
else if v > max { max } else { v }`. -/
def clamp {α : Type} [LinearOrder α] (v mn mx : α) : α :=
  if v < mn then mn else if v > mx then mx else v

/-! ## Paddle motion (`move_paddle`, lines 261-273) -/

/-- One `move_paddle` integration step for a paddle at height `y` with intent
direction `dir` over elapsed time `dt`:
`y += PADDLE_SPEED * dir * dt` then clamp to the court's vertical bounds. -/
noncomputable def movePaddle (y : ℝ) (dir : ℤ) (dt : ℝ) : ℝ :=
  clamp (y + PADDLE_SPEED * (dir : ℝ) * dt)
    (-(WINDOW_H / 2) + PADDLE_HALF_Y)
    (WINDOW_H / 2 - PADDLE_HALF_Y)

/-- Fold of `movePaddle` over a sequence of (direction, elapsed-time) ticks. -/
noncomputable def movePaddleRun (y : ℝ) (steps : List (ℤ × ℝ)) : ℝ :=
  steps.foldl (fun h s => movePaddle h s.1 s.2) y

/-! ## Ball motion (`move_ball`, lines 275-321) -/

/-- Rotation of a vector `v` by angle `θ`, modelling
`Vec2::from_angle(θ).rotate(v)`. -/
noncomputable def rotateVec (θ : ℝ) (v : Vec2) : Vec2 :=
  ⟨v.x * Real.cos θ - v.y * Real.sin θ, v.x * Real.sin θ + v.y * Real.cos θ⟩

/-- Wall-bounce stage of `move_ball` (lines 286-289): given the integrated
position and current velocity, if the vertical position exceeds
`MAX_BALL_Y` in either direction, invert the vertical velocity component and
clamp the vertical position. Returns (position, velocity). -/
noncomputable def wallBounce (p v : Vec2) : Vec2 × Vec2 :=
  if p.y > MAX_BALL_Y ∨ p.y < -MAX_BALL_Y then
    (⟨p.x, clamp p.y (-MAX_BALL_Y) MAX_BALL_Y⟩, ⟨v.x, -v.y⟩)
  else (p, v)

/-- The vertical plane above the paddle used by collision culling:
`center.y + PADDLE_SHAPE.half_size.y + BALL_SHAPE.half_size.x` (line 293). -/
def topWallY (c : Vec2) : ℝ := c.y + PADDLE_HALF_Y + BALL_HALF_X

/-- `center.y - PADDLE_SHAPE.half_size.y - BALL_SHAPE.half_size.x`
(line 294). -/
def bottomWallY (c : Vec2) : ℝ := c.y - PADDLE_HALF_Y - BALL_HALF_X

/-- Collision plane to the left of a paddle:
`center.x - PADDLE_SHAPE.half_size.x - BALL_SHAPE.half_size.x` (line 295). -/
def leftWallX (c : Vec2) : ℝ := c.x - PADDLE_HALF_X - BALL_HALF_X

/-- Collision plane to the right of a paddle (line 296). -/
def rightWallX (c : Vec2) : ℝ := c.x + PADDLE_HALF_X + BALL_HALF_X

/-- Paddle-collision detection for one paddle with center `c`, given the
step's previous horizontal position `prevX` and the post-wall-bounce ball
position `pos`: not vertically culled (lines 298-300), and either a right
collision or a left collision (lines 302-303). -/
def collisionDetected (prevX : ℝ) (pos c : Vec2) : Prop :=
  ¬(pos.y > topWallY c ∨ pos.y < bottomWallY c) ∧
    ((prevX > rightWallX c ∧ pos.x < rightWallX c) ∨
      (prevX < leftWallX c ∧ pos.x > leftWallX c))

/-- Paddle-collision detection as worded by the spec (refinement side, for
comparison with `collisionDetected`): the ball's vertical position lies
within the paddle's vertical span expanded by the ball's half-extent, and
the ball crossed the paddle's collision plane during the step — previous x
strictly beyond the right face and current x strictly inside it, or the
mirror condition on the left face. -/
def specPaddleCollision (prevX : ℝ) (pos c : Vec2) : Prop :=
  (c.y - (PADDLE_HALF_Y + BALL_HALF_Y) ≤ pos.y ∧
      pos.y ≤ c.y + (PADDLE_HALF_Y + BALL_HALF_Y)) ∧
    ((prevX > rightWallX c ∧ pos.x < rightWallX c) ∨
      (prevX < leftWallX c ∧ pos.x > leftWallX c))

/-- Collision response of `move_ball`'s per-paddle loop body
(lines 291-310): skip the paddle if vertically culled or the ball did not
cross a collision plane; otherwise invert the horizontal velocity and rotate
the velocity by `COLLISION_MAX_ANGLE * percent_vertical`. Only the velocity
changes. -/
noncomputable def paddleBounce (prevX : ℝ) (pos : Vec2) (v : Vec2) (c : Vec2) :
    Vec2 :=
  if pos.y > topWallY c ∨ pos.y < bottomWallY c then v
  else if (prevX > rightWallX c ∧ pos.x < rightWallX c) ∨
      (prevX < leftWallX c ∧ pos.x > leftWallX c) then
    rotateVec (COLLISION_MAX_ANGLE * ((pos.y - c.y) / PADDLE_HALF_Y))
      ⟨-v.x, v.y⟩
  else v

/-- Scoring stage of `move_ball` (lines 312-319): from the post-wall-bounce
position, decide the score increments and the requested state transition.
Returns (player score, enemy score, requested next state). Note the source
compares against `PADDLE_SHAPE.half_size.x` here, not the ball's
half-extent (both are 4). -/
noncomputable def scoreStep (pos : Vec2) (sp se : ℤ) :
    ℤ × ℤ × Option GameState :=
  if pos.x - PADDLE_HALF_X ≤ -(WINDOW_H / 2) then
    (sp + 1, se, some GameState.RoundOver)
  else if pos.x + PADDLE_HALF_X ≥ WINDOW_H / 2 then
    (sp, se + 1, some GameState.RoundOver)
  else (sp, se, none)

/-- Result of one `move_ball` tick for the single ball: final position and
velocity, both scores, and the requested state transition (if any). -/
structure TickResult where
  pos : Vec2
  vel : Vec2
  scorePlayer : ℤ
  scoreEnemy : ℤ
  next : Option GameState

/-- One `move_ball` tick (lines 275-321), for a ball `b`, the list of paddle
centers `paddles` (iteration order of the paddle query), scores `sp`, `se`
and elapsed time `dt`: record the previous horizontal position, integrate
the position by `vel * dt`, bounce off the horizontal walls, run the
per-paddle collision loop over the velocity, then run the scoring checks. -/
noncomputable def moveBall (dt : ℝ) (b : BallState) (paddles : List Vec2)
    (sp se : ℤ) : TickResult :=
  let prevX := b.pos.x
  let posI : Vec2 := ⟨b.pos.x + b.vel.x * dt, b.pos.y + b.vel.y * dt⟩
  let pv := wallBounce posI b.vel
  let vel2 := paddles.foldl (fun v c => paddleBounce prevX pv.1 v c) pv.2
  let sc := scoreStep pv.1 sp se
  ⟨pv.1, vel2, sc.1, sc.2.1, sc.2.2⟩

/-- Ball state after a sequence of `move_ball` ticks, each tick given by its
elapsed time and the paddle centers seen that tick (scores do not influence
ball motion). -/
noncomputable def runTicks (b : BallState) (ticks : List (ℝ × List Vec2)) :
    BallState :=
  ticks.foldl (fun st t =>
    let r := moveBall t.1 st t.2 0 0
    ⟨r.pos, r.vel⟩) b

/-- Squared magnitude of a vector. -/
def normSq (v : Vec2) : ℝ := v.x ^ 2 + v.y ^ 2

/-- Magnitude (speed) of a velocity vector. -/
noncomputable def speed (v : Vec2) : ℝ := Real.sqrt (normSq v)

/-! ## Round start, serving, AI controller, schedule, round timer -/

/-- Ball velocity set by `on_round_started` (lines 224-230) on entry to
`Started`: `Vec2::new(-BALL_SPEED, 0)`. -/
def serveVel : Vec2 := ⟨-BALL_SPEED, 0⟩

/-- Horizontal position of the player paddle, spawned at
`-WINDOW_SIZE.0/2 + PADDLE_SHAPE.half_size.x` (lines 150-163). -/
noncomputable def playerPaddleX : ℝ := -(WINDOW_W / 2) + PADDLE_HALF_X

/-- Horizontal position of the enemy paddle, spawned at
`WINDOW_SIZE.0/2 - PADDLE_SHAPE.half_size.x` (lines 165-178). -/
noncomputable def enemyPaddleX : ℝ := WINDOW_W / 2 - PADDLE_HALF_X

/-- The direction computed by `enemy_ai` (lines 246-259):
`(ball.y - paddle.y).signum() as i32`. Rust's `f32::signum` returns `1.0`
for every non-negative value — including `+0.0`, which is what `x - x`
evaluates to — and `-1.0` for every negative value; it never returns `0`.
The cast to `i32` maps `±1.0` to `±1`. -/
noncomputable def enemyAiDir (ballY paddleY : ℝ) : ℤ :=
  if ballY - paddleY < 0 then -1 else 1

/-- Whether `player_input` runs in a given round state: it is registered in
the `Update` schedule with no `run_if` condition (line 111), so it runs in
every state. -/
def playerInputRuns (_ : GameState) : Bool := true

/-- Whether `enemy_ai` runs in a given round state: it is registered with
`run_if(in_state(GameState::Started))` (line 115). -/
def enemyAiRuns : GameState → Bool
  | GameState.Started => true
  | _ => false

/-- Elapsed value of the `NextRoundTimer` after `Timer::tick(delta)`
(line 362): a once-mode Bevy timer accumulates elapsed time, saturating at
its duration (`NEXT_ROUND_INTERVAL`). -/
noncomputable def tickTimer (elapsed d : ℝ) : ℝ :=
  min (elapsed + d) NEXT_ROUND_INTERVAL

/-- One `round_over` tick (lines 357-366): advance the timer; when it is
finished (elapsed has reached the duration), request the transition to
`Serving`. Returns (new elapsed, requested next state). -/
noncomputable def roundOverTick (elapsed d : ℝ) : ℝ × Option GameState :=
  let e := tickTimer elapsed d
  (e, if NEXT_ROUND_INTERVAL ≤ e then some GameState.Serving else none)

/-- Timer elapsed value right after `on_round_over` (lines 346-355):
`timer.reset()` returns the timer to zero elapsed time. -/
def resetElapsed : ℝ := 0

/-! ## Helper lemmas -/

/-- The result of `clamp` lies between the bounds whenever they are ordered. -/
theorem clamp_mem {α : Type} [LinearOrder α] (v mn mx : α) (h : mn ≤ mx) :
    mn ≤ clamp v mn mx ∧ clamp v mn mx ≤ mx := by
  unfold clamp
  split
  · exact ⟨le_refl _, h⟩
  · split
    · exact ⟨h, le_refl _⟩
    · constructor
      · exact le_of_not_lt (by assumption)
      · exact le_of_not_lt (by assumption)

/-- `moveBall` returns the post-wall-bounce position unchanged. -/
theorem moveBall_pos (dt : ℝ) (b : BallState) (paddles : List Vec2)
    (sp se : ℤ) :
    (moveBall dt b paddles sp se).pos =
      (wallBounce ⟨b.pos.x + b.vel.x * dt, b.pos.y + b.vel.y * dt⟩ b.vel).1 :=
  rfl

theorem moveBall_vel (dt : ℝ) (b : BallState) (paddles : List Vec2)
    (sp se : ℤ) :
    (moveBall dt b paddles sp se).vel =
      paddles.foldl
        (fun v c =>
          paddleBounce b.pos.x
            (wallBounce ⟨b.pos.x + b.vel.x * dt, b.pos.y + b.vel.y * dt⟩
              b.vel).1 v c)
        (wallBounce ⟨b.pos.x + b.vel.x * dt, b.pos.y + b.vel.y * dt⟩ b.vel).2 :=
  rfl

theorem moveBall_score (dt : ℝ) (b : BallState) (paddles : List Vec2)
    (sp se : ℤ) :
    ((moveBall dt b paddles sp se).scorePlayer,
        (moveBall dt b paddles sp se).scoreEnemy,
        (moveBall dt b paddles sp se).next) =
      scoreStep
        (wallBounce ⟨b.pos.x + b.vel.x * dt, b.pos.y + b.vel.y * dt⟩ b.vel).1
        sp se :=
  rfl

/-- The wall bounce never changes the horizontal position. -/
theorem wallBounce_fst_x (p v : Vec2) : (wallBounce p v).1.x = p.x := by
  unfold wallBounce
  split <;> rfl

/-- The wall bounce leaves the vertical position inside the court. -/
theorem wallBounce_y_mem (p v : Vec2) :
    -MAX_BALL_Y ≤ (wallBounce p v).1.y ∧ (wallBounce p v).1.y ≤ MAX_BALL_Y := by
  have hM : -MAX_BALL_Y ≤ MAX_BALL_Y := by
    norm_num [MAX_BALL_Y, WINDOW_H, BALL_HALF_Y]
  unfold wallBounce
  split
  · exact clamp_mem _ _ _ hM
  · rename_i h
    push_neg at h
    exact ⟨h.2, h.1⟩

/-- Vector rotation preserves the squared magnitude. -/
theorem rotateVec_normSq (θ : ℝ) (v : Vec2) :
    normSq (rotateVec θ v) = normSq v := by
  unfold normSq rotateVec
  have h := Real.sin_sq_add_cos_sq θ
  dsimp only
  linear_combination (v.x ^ 2 + v.y ^ 2) * h

/-- The per-paddle collision response preserves the squared magnitude of the
velocity. -/
theorem paddleBounce_normSq (prevX : ℝ) (pos v c : Vec2) :
    normSq (paddleBounce prevX pos v c) = normSq v := by
  unfold paddleBounce
  split
  · rfl
  · split
    · rw [rotateVec_normSq]
      unfold normSq
      dsimp only
      ring
    · rfl

/-- The per-paddle collision loop preserves the squared magnitude of the
velocity. -/
theorem foldl_paddleBounce_normSq (prevX : ℝ) (pos : Vec2)
    (paddles : List Vec2) (v : Vec2) :
    normSq (paddles.foldl (fun w c => paddleBounce prevX pos w c) v) =
      normSq v := by
  induction paddles generalizing v with
  | nil => rfl
  | cons c cs ih =>
    rw [List.foldl_cons, ih, paddleBounce_normSq]

/-- The wall bounce preserves the squared magnitude of the velocity. -/
theorem wallBounce_snd_normSq (p v : Vec2) :
    normSq (wallBounce p v).2 = normSq v := by
  unfold wallBounce
  split
  · unfold normSq
    dsimp only
    ring
  · rfl

/-- A whole `move_ball` tick preserves the squared magnitude of the
velocity. -/
theorem moveBall_vel_normSq (dt : ℝ) (b : BallState) (paddles : List Vec2)
    (sp se : ℤ) :
    normSq (moveBall dt b paddles sp se).vel = normSq b.vel := by
  rw [moveBall_vel, foldl_paddleBounce_normSq, wallBounce_snd_normSq]

/-- The serve speed is `BALL_SPEED`. -/
theorem speed_serveVel : speed serveVel = BALL_SPEED := by
  have h : normSq serveVel = BALL_SPEED ^ 2 := by
    norm_num [normSq, serveVel, BALL_SPEED]
  rw [speed, h]
  exact Real.sqrt_sq (by norm_num [BALL_SPEED])

/-- The scoring stage: left crossing gives the player the point, right
crossing gives the enemy the point, each requesting `RoundOver`. -/
theorem scoreStep_spec (pos : Vec2) (sp se : ℤ) :
    (pos.x - PADDLE_HALF_X ≤ -(WINDOW_H / 2) →
      scoreStep pos sp se = (sp + 1, se, some GameState.RoundOver)) ∧
    (pos.x + PADDLE_HALF_X ≥ WINDOW_H / 2 →
      scoreStep pos sp se = (sp, se + 1, some GameState.RoundOver)) ∧
    ((scoreStep pos sp se).1 = sp ∨ (scoreStep pos sp se).2.1 = se) := by
  refine ⟨?_, ?_, ?_⟩
  · intro h
    unfold scoreStep
    rw [if_pos h]
  · intro h
    have hnl : ¬(pos.x - PADDLE_HALF_X ≤ -(WINDOW_H / 2)) := by
      simp only [PADDLE_HALF_X, WINDOW_H] at h ⊢
      norm_num at h ⊢
      linarith
    unfold scoreStep
    rw [if_neg hnl, if_pos h]
  · unfold scoreStep
    split
    · right; rfl
    · split
      · left; rfl
      · left; rfl

theorem movePaddle_mem (y : ℝ) (dir : ℤ) (dt : ℝ) :
    -(WINDOW_H / 2) + PADDLE_HALF_Y ≤ movePaddle y dir dt ∧
      movePaddle y dir dt ≤ WINDOW_H / 2 - PADDLE_HALF_Y := by
  unfold movePaddle
  exact clamp_mem _ _ _ (by norm_num [WINDOW_H, PADDLE_HALF_Y])

/-! ## Claim theorems -/

/-- C4: on every tick (paddle integration runs in every round state), for any
input direction and elapsed time — hence for any sequence of input
directions — the paddle's vertical position after integration lies in
`[-courtHalfHeight + paddleHalfHeight, courtHalfHeight - paddleHalfHeight]`;
over a nonempty sequence of ticks the final position obeys the same bounds. -/
theorem paddle_stays_in_court :
    (∀ (y : ℝ) (dir : ℤ) (dt : ℝ),
      -(WINDOW_H / 2) + PADDLE_HALF_Y ≤ movePaddle y dir dt ∧
        movePaddle y dir dt ≤ WINDOW_H / 2 - PADDLE_HALF_Y) ∧
    (∀ (y : ℝ) (steps : List (ℤ × ℝ)), steps ≠ [] →
      -(WINDOW_H / 2) + PADDLE_HALF_Y ≤ movePaddleRun y steps ∧
        movePaddleRun y steps ≤ WINDOW_H / 2 - PADDLE_HALF_Y) := by
  refine ⟨movePaddle_mem, ?_⟩
  intro y steps
  induction steps generalizing y with
  | nil => intro h; exact absurd rfl h
  | cons s rest ih =>
    intro _
    cases rest with
    | nil => exact movePaddle_mem y s.1 s.2
    | cons t ts =>
      have h := ih (movePaddle y s.1 s.2) (by simp)
      simpa [movePaddleRun] using h

/-- C1: a paddle collision is detected exactly when the ball's vertical
position lies within the paddle's vertical span expanded by the ball's
half-extent and the ball's horizontal position strictly crossed that
paddle's collision plane during the step; and whenever the previous and
current x are on the same side of both planes (non-negative products of
signed distances), no collision is detected. -/
theorem collision_detection_iff (prevX : ℝ) (pos c : Vec2) :
    (collisionDetected prevX pos c ↔ specPaddleCollision prevX pos c) ∧
    ((prevX - rightWallX c) * (pos.x - rightWallX c) ≥ 0 →
      (prevX - leftWallX c) * (pos.x - leftWallX c) ≥ 0 →
      ¬collisionDetected prevX pos c) := by
  constructor
  · unfold collisionDetected specPaddleCollision topWallY bottomWallY
    constructor
    · rintro ⟨hy, hx⟩
      push_neg at hy
      refine ⟨⟨?_, ?_⟩, hx⟩
      · have := hy.2
        norm_num [BALL_HALF_X, BALL_HALF_Y, PADDLE_HALF_Y] at this ⊢
        linarith
      · have := hy.1
        norm_num [BALL_HALF_X, BALL_HALF_Y, PADDLE_HALF_Y] at this ⊢
        linarith
    · rintro ⟨hy, hx⟩
      refine ⟨?_, hx⟩
      push_neg
      constructor
      · have := hy.2
        norm_num [BALL_HALF_X, BALL_HALF_Y, PADDLE_HALF_Y] at this ⊢
        linarith
      · have := hy.1
        norm_num [BALL_HALF_X, BALL_HALF_Y, PADDLE_HALF_Y] at this ⊢
        linarith
  · rintro hR hL ⟨-, hx | hx⟩
    · nlinarith [hx.1, hx.2]
    · nlinarith [hx.1, hx.2]

/-- Witness for C1: a ball that stays strictly to the right of both planes
is not in collision. -/
theorem collision_detection_iff_witness :
    ((100 : ℝ) - rightWallX ⟨0, 0⟩) * ((100 : ℝ) - rightWallX ⟨0, 0⟩) ≥ 0 ∧
    ((100 : ℝ) - leftWallX ⟨0, 0⟩) * ((100 : ℝ) - leftWallX ⟨0, 0⟩) ≥ 0 ∧
    ¬collisionDetected 100 ⟨100, 0⟩ ⟨0, 0⟩ := by
  have h1 : ((100 : ℝ) - rightWallX ⟨0, 0⟩) * ((100 : ℝ) - rightWallX ⟨0, 0⟩) ≥ 0 := by
    norm_num [rightWallX, PADDLE_HALF_X, BALL_HALF_X]
  have h2 : ((100 : ℝ) - leftWallX ⟨0, 0⟩) * ((100 : ℝ) - leftWallX ⟨0, 0⟩) ≥ 0 := by
    norm_num [leftWallX, PADDLE_HALF_X, BALL_HALF_X]
  exact ⟨h1, h2, (collision_detection_iff 100 ⟨100, 0⟩ ⟨0, 0⟩).2 h1 h2⟩

/-- C2: on every detected paddle collision the velocity becomes the
horizontal inversion rotated by `COLLISION_MAX_ANGLE` times the normalized
vertical offset; a center hit returns the ball exactly horizontally
reversed, an offset of `±1` deflects by exactly `±COLLISION_MAX_ANGLE`
(45°), and the response preserves the velocity's magnitude. -/
theorem paddle_collision_response (prevX : ℝ) (pos v c : Vec2)
    (h : collisionDetected prevX pos c) :
    paddleBounce prevX pos v c =
      rotateVec (COLLISION_MAX_ANGLE * ((pos.y - c.y) / PADDLE_HALF_Y))
        ⟨-v.x, v.y⟩ ∧
    (pos.y = c.y → paddleBounce prevX pos v c = ⟨-v.x, v.y⟩) ∧
    ((pos.y - c.y) / PADDLE_HALF_Y = 1 →
      paddleBounce prevX pos v c = rotateVec COLLISION_MAX_ANGLE ⟨-v.x, v.y⟩) ∧
    ((pos.y - c.y) / PADDLE_HALF_Y = -1 →
      paddleBounce prevX pos v c =
        rotateVec (-COLLISION_MAX_ANGLE) ⟨-v.x, v.y⟩) ∧
    speed (paddleBounce prevX pos v c) = speed v := by
  obtain ⟨hy, hx⟩ := h
  have hb : paddleBounce prevX pos v c =
      rotateVec (COLLISION_MAX_ANGLE * ((pos.y - c.y) / PADDLE_HALF_Y))
        ⟨-v.x, v.y⟩ := by
    unfold paddleBounce
    rw [if_neg hy, if_pos hx]
  refine ⟨hb, ?_, ?_, ?_, ?_⟩
  · intro hc
    rw [hb, hc]
    simp [rotateVec]
  · intro he
    rw [hb, he, mul_one]
  · intro he
    rw [hb, he, mul_neg_one]
  · rw [hb]
    unfold speed
    congr 1
    rw [rotateVec_normSq]
    unfold normSq
    dsimp only
    ring

/-- Witness for C2: a concrete right collision (previous x beyond the plane
at 8, current x inside it) with the paddle centered at the origin. -/
theorem paddle_collision_response_witness :
    collisionDetected 9 ⟨7, 0⟩ ⟨0, 0⟩ ∧
      ((0 : ℝ) = (0 : ℝ) →
        paddleBounce 9 ⟨7, 0⟩ ⟨-3, 4⟩ ⟨0, 0⟩ = ⟨-(-3 : ℝ), 4⟩) ∧
      speed (paddleBounce 9 ⟨7, 0⟩ ⟨-3, 4⟩ ⟨0, 0⟩) = speed ⟨-3, 4⟩ := by
  have hc : collisionDetected 9 ⟨7, 0⟩ ⟨0, 0⟩ := by
    constructor
    · norm_num [topWallY, bottomWallY, PADDLE_HALF_Y, BALL_HALF_X]
    · left
      norm_num [rightWallX, PADDLE_HALF_X, BALL_HALF_X]
  have h := paddle_collision_response 9 ⟨7, 0⟩ ⟨-3, 4⟩ ⟨0, 0⟩ hc
  exact ⟨hc, fun he => h.2.1 he, h.2.2.2.2⟩

/-- C3: on a Started-state tick, if the post-integration horizontal position
minus the ball's half-extent passes beyond the court's left edge, the player
score is incremented by exactly 1 and `RoundOver` is requested; if it passes
beyond the right edge, the enemy score is incremented by exactly 1 with the
same transition; no single tick increments both scores. -/
theorem scoring_on_goal (dt : ℝ) (b : BallState) (paddles : List Vec2)
    (sp se : ℤ) :
    ((b.pos.x + b.vel.x * dt) - BALL_HALF_X ≤ -(WINDOW_H / 2) →
      (moveBall dt b paddles sp se).scorePlayer = sp + 1 ∧
      (moveBall dt b paddles sp se).scoreEnemy = se ∧
      (moveBall dt b paddles sp se).next = some GameState.RoundOver) ∧
    ((b.pos.x + b.vel.x * dt) + BALL_HALF_X ≥ WINDOW_H / 2 →
      (moveBall dt b paddles sp se).scoreEnemy = se + 1 ∧
      (moveBall dt b paddles sp se).scorePlayer = sp ∧
      (moveBall dt b paddles sp se).next = some GameState.RoundOver) ∧
    ¬((moveBall dt b paddles sp se).scorePlayer = sp + 1 ∧
      (moveBall dt b paddles sp se).scoreEnemy = se + 1) := by
  have hx : (wallBounce ⟨b.pos.x + b.vel.x * dt, b.pos.y + b.vel.y * dt⟩
      b.vel).1.x = b.pos.x + b.vel.x * dt := wallBounce_fst_x _ _
  have hsc := moveBall_score dt b paddles sp se
  have hspec := scoreStep_spec
    (wallBounce ⟨b.pos.x + b.vel.x * dt, b.pos.y + b.vel.y * dt⟩ b.vel).1 sp se
  have hhalf : BALL_HALF_X = PADDLE_HALF_X := by
    norm_num [BALL_HALF_X, PADDLE_HALF_X]
  refine ⟨?_, ?_, ?_⟩
  · intro h
    rw [hhalf, ← hx] at h
    have := hspec.1 h
    rw [this] at hsc
    exact ⟨congrArg Prod.fst hsc,
      congrArg (fun p => p.2.1) hsc, congrArg (fun p => p.2.2) hsc⟩
  · intro h
    rw [hhalf, ← hx] at h
    have := hspec.2.1 h
    rw [this] at hsc
    exact ⟨congrArg (fun p => p.2.1) hsc, congrArg Prod.fst hsc,
      congrArg (fun p => p.2.2) hsc⟩
  · rintro ⟨hp, he⟩
    have h1 : (moveBall dt b paddles sp se).scorePlayer =
        (scoreStep (wallBounce ⟨b.pos.x + b.vel.x * dt,
          b.pos.y + b.vel.y * dt⟩ b.vel).1 sp se).1 := congrArg Prod.fst hsc
    have h2 : (moveBall dt b paddles sp se).scoreEnemy =
        (scoreStep (wallBounce ⟨b.pos.x + b.vel.x * dt,
          b.pos.y + b.vel.y * dt⟩ b.vel).1 sp se).2.1 :=
      congrArg (fun p => p.2.1) hsc
    rcases hspec.2.2 with h | h
    · rw [h1, h] at hp
      omega
    · rw [h2, h] at he
      omega

/-- Witness for C3: a ball shot from the center far past the left edge
scores for the player and requests `RoundOver`. -/
theorem scoring_on_goal_witness :
    (((0 : ℝ) + (-300) * 1) - BALL_HALF_X ≤ -(WINDOW_H / 2)) ∧
      ((moveBall 1 ⟨⟨0, 0⟩, ⟨-300, 0⟩⟩ [] 0 0).scorePlayer = 0 + 1 ∧
        (moveBall 1 ⟨⟨0, 0⟩, ⟨-300, 0⟩⟩ [] 0 0).scoreEnemy = 0 ∧
        (moveBall 1 ⟨⟨0, 0⟩, ⟨-300, 0⟩⟩ [] 0 0).next =
          some GameState.RoundOver) := by
  have h : (((0 : ℝ) + (-300) * 1) - BALL_HALF_X ≤ -(WINDOW_H / 2)) := by
    norm_num [BALL_HALF_X, WINDOW_H]
  exact ⟨h, (scoring_on_goal 1 ⟨⟨0, 0⟩, ⟨-300, 0⟩⟩ [] 0 0).1 h⟩

/-- C5: after any Started-state tick the ball's vertical position is at most
`MAX_BALL_Y` in magnitude; and when a wall bounce occurs it exactly inverts
the vertical velocity component, leaves the horizontal velocity component
unchanged, and clamps the vertical position to the crossed boundary. -/
theorem ball_wall_bounce :
    (∀ (dt : ℝ) (b : BallState) (paddles : List Vec2) (sp se : ℤ),
      -MAX_BALL_Y ≤ (moveBall dt b paddles sp se).pos.y ∧
        (moveBall dt b paddles sp se).pos.y ≤ MAX_BALL_Y) ∧
    (∀ p v : Vec2, p.y > MAX_BALL_Y ∨ p.y < -MAX_BALL_Y →
      (wallBounce p v).2.x = v.x ∧
      (wallBounce p v).2.y = -v.y ∧
      (wallBounce p v).1.x = p.x ∧
      (p.y > MAX_BALL_Y → (wallBounce p v).1.y = MAX_BALL_Y) ∧
      (p.y < -MAX_BALL_Y → (wallBounce p v).1.y = -MAX_BALL_Y)) := by
  have hM : -MAX_BALL_Y ≤ MAX_BALL_Y := by
    norm_num [MAX_BALL_Y, WINDOW_H, BALL_HALF_Y]
  constructor
  · intro dt b paddles sp se
    rw [moveBall_pos]
    exact wallBounce_y_mem _ _
  · intro p v h
    have hw : wallBounce p v =
        (⟨p.x, clamp p.y (-MAX_BALL_Y) MAX_BALL_Y⟩, ⟨v.x, -v.y⟩) := by
      unfold wallBounce
      rw [if_pos h]
    refine ⟨by rw [hw], by rw [hw], by rw [hw], ?_, ?_⟩
    · intro hup
      rw [hw]
      show clamp p.y (-MAX_BALL_Y) MAX_BALL_Y = MAX_BALL_Y
      unfold clamp
      rw [if_neg (by linarith), if_pos hup]
    · intro hdown
      rw [hw]
      show clamp p.y (-MAX_BALL_Y) MAX_BALL_Y = -MAX_BALL_Y
      unfold clamp
      rw [if_pos hdown]

/-- Witness for C5: a ball that overshoots the top wall at height 300 is
reflected and clamped. -/
theorem ball_wall_bounce_witness :
    ((300 : ℝ) > MAX_BALL_Y ∨ (300 : ℝ) < -MAX_BALL_Y) ∧
      ((wallBounce ⟨0, 300⟩ ⟨1, 2⟩).2.x = 1 ∧
        (wallBounce ⟨0, 300⟩ ⟨1, 2⟩).2.y = -2 ∧
        (wallBounce ⟨0, 300⟩ ⟨1, 2⟩).1.x = 0 ∧
        ((300 : ℝ) > MAX_BALL_Y →
          (wallBounce ⟨0, 300⟩ ⟨1, 2⟩).1.y = MAX_BALL_Y) ∧
        ((300 : ℝ) < -MAX_BALL_Y →
          (wallBounce ⟨0, 300⟩ ⟨1, 2⟩).1.y = -MAX_BALL_Y)) := by
  have h : (300 : ℝ) > MAX_BALL_Y ∨ (300 : ℝ) < -MAX_BALL_Y := by
    left
    norm_num [MAX_BALL_Y, WINDOW_H, BALL_HALF_Y]
  exact ⟨h, ball_wall_bounce.2 ⟨0, 300⟩ ⟨1, 2⟩ h⟩

/-- C10: the ball's speed is invariant throughout a round: the serve speed is
`BALL_SPEED`, every `move_ball` tick (wall bounces and paddle collisions
included) preserves the speed, and from the serve state any sequence of
ticks leaves the speed equal to `BALL_SPEED`. -/
theorem ball_speed_invariant :
    speed serveVel = BALL_SPEED ∧
    (∀ (dt : ℝ) (b : BallState) (paddles : List Vec2) (sp se : ℤ),
      speed (moveBall dt b paddles sp se).vel = speed b.vel) ∧
    (∀ ticks : List (ℝ × List Vec2),
      speed (runTicks ⟨⟨0, 0⟩, serveVel⟩ ticks).vel = BALL_SPEED) := by
  refine ⟨speed_serveVel, ?_, ?_⟩
  · intro dt b paddles sp se
    unfold speed
    rw [moveBall_vel_normSq]
  · intro ticks
    suffices h : ∀ (b : BallState), speed b.vel = BALL_SPEED →
        speed (runTicks b ticks).vel = BALL_SPEED by
      exact h _ speed_serveVel
    induction ticks with
    | nil => intro b hb; exact hb
    | cons t ts ih =>
      intro b hb
      have hstep : speed (moveBall t.1 b t.2 0 0).vel = BALL_SPEED := by
        rw [show speed (moveBall t.1 b t.2 0 0).vel = speed b.vel from by
          unfold speed; rw [moveBall_vel_normSq]]
        exact hb
      have : runTicks b (t :: ts) =
          runTicks ⟨(moveBall t.1 b t.2 0 0).pos, (moveBall t.1 b t.2 0 0).vel⟩
            ts := by
        unfold runTicks
        rw [List.foldl_cons]
      rw [this]
      exact ih _ hstep

/-- Witness for C4: a concrete two-tick run stays inside the court. -/
theorem paddle_stays_in_court_witness :
    ([((1 : ℤ), (10 : ℝ)), ((-1 : ℤ), (2 : ℝ))] ≠ ([] : List (ℤ × ℝ))) ∧
      (-(WINDOW_H / 2) + PADDLE_HALF_Y ≤
          movePaddleRun 0 [((1 : ℤ), (10 : ℝ)), ((-1 : ℤ), (2 : ℝ))] ∧
        movePaddleRun 0 [((1 : ℤ), (10 : ℝ)), ((-1 : ℤ), (2 : ℝ))] ≤
          WINDOW_H / 2 - PADDLE_HALF_Y) :=
  ⟨by simp, paddle_stays_in_court.2 0 _ (by simp)⟩

/-- C6 counterexample: with the ball exactly level with the AI paddle
(both at height 5) the computed direction is `1`, not `0` as the claim
states — `f32::signum` maps a zero difference to `1`. -/
theorem enemy_ai_level_counterexample :
    enemyAiDir 5 5 = 1 ∧ (1 : ℤ) ≠ 0 := by
  norm_num [enemyAiDir]

/-- C6 (amended): the AI controller sets the enemy paddle's direction to `1`
when the ball is strictly above the paddle or exactly level with it, and to
`-1` when the ball is strictly below. -/
theorem enemy_ai_direction (ballY paddleY : ℝ) :
    (paddleY < ballY → enemyAiDir ballY paddleY = 1) ∧
    (ballY < paddleY → enemyAiDir ballY paddleY = -1) ∧
    (ballY = paddleY → enemyAiDir ballY paddleY = 1) := by
  unfold enemyAiDir
  refine ⟨?_, ?_, ?_⟩
  · intro h
    rw [if_neg (by linarith)]
  · intro h
    rw [if_pos (by linarith)]
  · intro h
    rw [if_neg (by rw [h]; linarith)]

/-- Witness for C6 (amended): ball above the paddle gives direction `1`. -/
theorem enemy_ai_direction_witness :
    (0 : ℝ) < 1 ∧ enemyAiDir 1 0 = 1 :=
  ⟨by norm_num, (enemy_ai_direction 1 0).1 (by norm_num)⟩

/-- C7 counterexample: the serve velocity points in the negative x
direction while the enemy paddle sits at positive x, so the ball (served
from the origin) is not directed toward the enemy side. -/
theorem serve_direction_counterexample :
    serveVel.x < 0 ∧ 0 < enemyPaddleX ∧ serveVel.x * enemyPaddleX < 0 := by
  norm_num [serveVel, enemyPaddleX, BALL_SPEED, WINDOW_W, PADDLE_HALF_X]

/-- C7 (amended): on every transition into `Started` the ball's velocity is
set to the fixed speed `BALL_SPEED` directed toward the player side
(leftward, the same negative-x side as the player paddle), with zero
vertical component. -/
theorem serve_velocity_leftward :
    serveVel = ⟨-BALL_SPEED, 0⟩ ∧ serveVel.x < 0 ∧ playerPaddleX < 0 ∧
      serveVel.y = 0 ∧ speed serveVel = BALL_SPEED := by
  refine ⟨rfl, ?_, ?_, rfl, speed_serveVel⟩
  · norm_num [serveVel, BALL_SPEED]
  · norm_num [playerPaddleX, WINDOW_W, PADDLE_HALF_X]

/-- C8 counterexample: in the `Serving` state the player input controller
runs but the AI controller does not — `enemy_ai` is gated by
`run_if(in_state(GameState::Started))`, so it does not execute in every
round state. -/
theorem controllers_schedule_counterexample :
    playerInputRuns GameState.Serving = true ∧
      enemyAiRuns GameState.Serving = false :=
  ⟨rfl, rfl⟩

/-- C8 (amended): the player input controller executes on every simulation
tick in every round state, while the AI controller executes only in the
`Started` state. -/
theorem controllers_schedule :
    (∀ s : GameState, playerInputRuns s = true) ∧
    enemyAiRuns GameState.Started = true ∧
    enemyAiRuns GameState.Serving = false ∧
    enemyAiRuns GameState.RoundOver = false ∧
    enemyAiRuns GameState.GameOver = false :=
  ⟨fun _ => rfl, rfl, rfl, rfl, rfl⟩

/-- C9: from `RoundOver`, with the timer reset to elapsed `0` on entry and a
fixed duration of `1` time unit, a tick requests the transition to `Serving`
exactly when the accumulated elapsed time (earlier deltas `ds` plus the
current delta `d`) has reached the duration — never on an earlier tick; and
no `round_over` tick ever requests any transition other than `Serving`. -/
theorem round_over_timing :
    NEXT_ROUND_INTERVAL = 1 ∧ resetElapsed = 0 ∧
    (∀ (ds : List ℝ) (d : ℝ), (∀ x ∈ ds, 0 ≤ x) → 0 ≤ d →
      ((roundOverTick (List.foldl tickTimer resetElapsed ds) d).2 =
          some GameState.Serving ↔ 1 ≤ ds.sum + d)) ∧
    (∀ e d : ℝ, (roundOverTick e d).2 = none ∨
      (roundOverTick e d).2 = some GameState.Serving) := by
  have hfold : ∀ (ds : List ℝ) (e : ℝ), e ≤ 1 → (∀ x ∈ ds, 0 ≤ x) →
      List.foldl tickTimer e ds = min (e + ds.sum) 1 := by
    intro ds
    induction ds with
    | nil =>
      intro e he _
      simp only [List.foldl_nil, List.sum_nil, add_zero]
      exact (min_eq_left he).symm
    | cons d ds ih =>
      intro e he hnn
      have hd : 0 ≤ d := hnn d (by simp)
      have hds : ∀ x ∈ ds, 0 ≤ x := fun x hx => hnn x (by simp [hx])
      have hsum : 0 ≤ ds.sum := List.sum_nonneg hds
      rw [List.foldl_cons]
      have h1 : tickTimer e d = min (e + d) 1 := by
        unfold tickTimer NEXT_ROUND_INTERVAL
        rfl
      rw [h1, ih _ (min_le_right _ _) hds]
      rcases le_or_lt (e + d) 1 with hle | hgt
      · rw [min_eq_left hle, List.sum_cons]
        ring_nf
      · rw [min_eq_right (le_of_lt hgt), List.sum_cons]
        rw [min_eq_right (by linarith), min_eq_right (by linarith)]
  refine ⟨rfl, rfl, ?_, ?_⟩
  · intro ds d hnn hd
    have hsum : 0 ≤ ds.sum := List.sum_nonneg hnn
    rw [show resetElapsed = (0 : ℝ) from rfl,
      hfold ds 0 (by norm_num) hnn]
    unfold roundOverTick tickTimer NEXT_ROUND_INTERVAL
    simp only [zero_add]
    constructor
    · intro h
      have h1 : (1 : ℝ) ≤ min (min ds.sum 1 + d) 1 := by
        by_contra hc
        rw [if_neg hc] at h
        exact Option.noConfusion h
      have h2 : (1 : ℝ) ≤ min ds.sum 1 + d := le_trans h1 (min_le_left _ _)
      have h3 : min ds.sum 1 ≤ ds.sum := min_le_left _ _
      linarith
    · intro h
      have h2 : (1 : ℝ) ≤ min (min ds.sum 1 + d) 1 := by
        rcases le_or_lt 1 ds.sum with hs | hs
        · rw [min_eq_right hs]
          exact le_min (by linarith) (le_refl 1)
        · rw [min_eq_left (le_of_lt hs)]
          exact le_min (by linarith) (le_refl 1)
      rw [if_pos h2]
  · intro e d
    unfold roundOverTick
    dsimp only
    split
    · right; rfl
    · left; rfl

/-- Witness for C9: after half a second and then three quarters of a
second of round-over pause, the accumulated elapsed time reaches the
1-second duration and the transition to `Serving` is requested. -/
theorem round_over_timing_witness :
    (∀ x ∈ [(1 : ℝ) / 2], 0 ≤ x) ∧ (0 : ℝ) ≤ 3 / 4 ∧
      ((roundOverTick (List.foldl tickTimer resetElapsed [(1 : ℝ) / 2])
          (3 / 4)).2 = some GameState.Serving ↔
        1 ≤ ([(1 : ℝ) / 2]).sum + 3 / 4) := by
  have h1 : ∀ x ∈ [(1 : ℝ) / 2], 0 ≤ x := by
    intro x hx
    simp at hx
    rw [hx]
    norm_num
  exact ⟨h1, by norm_num,
    round_over_timing.2.2.1 [(1 : ℝ) / 2] (3 / 4) h1 (by norm_num)⟩

end KPong
